import Mathlib

/-!
Verification of the AS3004316 MRAM controller test scripts.

The Python sources drive an MRAM device over a serial byte channel.  The
protocol codec (`MRAMUART.write_mram` / `MRAMUART.read_mram`) is embedded as
pure functions on `Nat`; the memory-test algorithms (`march_c_test`,
`walking_ones_test`, `walking_zeros_test`, `checkerboard_test`) are embedded
as state-passing programs over an abstract transport, so that their command
traces and fault lists can be reasoned about for an arbitrary device.
-/

/-- An abstract transport: `write s a v` sends a write of word `v` to address
`a` in device state `s`; `read s a` returns the observed word together with
the successor state.  `MRAMUART` instances in the sources are transports whose
read already folds the timeout handling into the returned value. -/
structure Transport (σ : Type) where
  write : σ → Nat → Nat → σ
  read : σ → Nat → Nat × σ

/-- One fault record, mirroring the `(addr, phase, expected, actual)` tuples
appended to `errors` by every test algorithm in `march_test.py`. -/
structure FaultRecord where
  addr : Nat
  phase : String
  expected : Nat
  observed : Nat
deriving DecidableEq, Repr

/-- A wire-level command event: the engine either writes a word to an address
or reads an address. -/
inductive Event where
  | wr : Nat → Nat → Event
  | rd : Nat → Event
deriving DecidableEq, Repr

/-- Address of an event. -/
def eventAddr : Event → Nat
  | Event.wr a _ => a
  | Event.rd a => a

/-- Instrument a transport so that it also records the sequence of
commands issued, in order. -/
def traced {σ : Type} (T : Transport σ) : Transport (σ × List Event) where
  write := fun p a v => (T.write p.1 a v, p.2 ++ [Event.wr a v])
  read := fun p a => ((T.read p.1 a).1, ((T.read p.1 a).2, p.2 ++ [Event.rd a]))

/-- A pure write loop: `for (addr, val) in steps: uart.write_mram(addr, val)`. -/
def wLoop {σ : Type} (T : Transport σ) (steps : List (Nat × Nat)) (s : σ) : σ :=
  match steps with
  | [] => s
  | p :: rest => wLoop T rest (T.write s p.1 p.2)

/-- A read-check-write loop, as in March C phases 2-5:
`data = read(addr); if data != expected: errors.append(...); write(addr, wval)`.
Each step is `(addr, expected, wval)`. -/
def rwLoop {σ : Type} (T : Transport σ) (tag : String)
    (steps : List (Nat × Nat × Nat)) (s : σ) (errs : List FaultRecord) :
    σ × List FaultRecord :=
  match steps with
  | [] => (s, errs)
  | p :: rest =>
      let r := T.read s p.1
      let errs1 := if r.1 ≠ p.2.1 then errs ++ [⟨p.1, tag, p.2.1, r.1⟩] else errs
      rwLoop T tag rest (T.write r.2 p.1 p.2.2) errs1

/-- A read-check loop, as in March C phase 6 and all verify passes:
`data = read(addr); if data != expected: errors.append(...)`.
Each step is `(addr, expected)`. -/
def rLoop {σ : Type} (T : Transport σ) (tag : String)
    (steps : List (Nat × Nat)) (s : σ) (errs : List FaultRecord) :
    σ × List FaultRecord :=
  match steps with
  | [] => (s, errs)
  | p :: rest =>
      let r := T.read s p.1
      let errs1 := if r.1 ≠ p.2 then errs ++ [⟨p.1, tag, p.2, r.1⟩] else errs
      rLoop T tag rest r.2 errs1

/-- Device state after a read-check-write loop, ignoring the fault list. -/
def rwState {σ : Type} (T : Transport σ) (steps : List (Nat × Nat × Nat)) (s : σ) : σ :=
  match steps with
  | [] => s
  | p :: rest => rwState T rest (T.write (T.read s p.1).2 p.1 p.2.2)

/-- Device state after a read-check loop. -/
def rState {σ : Type} (T : Transport σ) (steps : List (Nat × Nat)) (s : σ) : σ :=
  match steps with
  | [] => s
  | p :: rest => rState T rest (T.read s p.1).2

/-- The sequence of words observed by the reads of a read-check-write loop. -/
def rwObs {σ : Type} (T : Transport σ) (steps : List (Nat × Nat × Nat)) (s : σ) : List Nat :=
  match steps with
  | [] => []
  | p :: rest => (T.read s p.1).1 :: rwObs T rest (T.write (T.read s p.1).2 p.1 p.2.2)

/-- The sequence of words observed by the reads of a read-check loop. -/
def rObs {σ : Type} (T : Transport σ) (steps : List (Nat × Nat)) (s : σ) : List Nat :=
  match steps with
  | [] => []
  | p :: rest => (T.read s p.1).1 :: rObs T rest (T.read s p.1).2

/-- Fault records produced by comparing a list of checks `(addr, expected)`
with the list of observed words: exactly one record, carrying the tag, per
mismatching read. -/
def mkFaults (tag : String) (checks : List (Nat × Nat)) (obs : List Nat) :
    List FaultRecord :=
  match checks, obs with
  | c :: cs, d :: ds =>
      if d ≠ c.2 then ⟨c.1, tag, c.2, d⟩ :: mkFaults tag cs ds
      else mkFaults tag cs ds
  | _, _ => []

/-- The wire events of a read-check-write loop: for each address, a read
followed by a write of `wval`. -/
def phaseEvents (addrs : List Nat) (wval : Nat) : List Event :=
  match addrs with
  | [] => []
  | a :: rest => Event.rd a :: Event.wr a wval :: phaseEvents rest wval

/-- Ascending address list of Python `range(startAddr, endAddr + 1)`. -/
def ascRange (startAddr endAddr : Nat) : List Nat :=
  List.range' startAddr (endAddr + 1 - startAddr)

/-- Descending address list of Python `range(endAddr, startAddr - 1, -1)`. -/
def descRange (startAddr endAddr : Nat) : List Nat :=
  (ascRange startAddr endAddr).reverse

/-- `march_c_test` from `march_test.py`: six phases
`⇕(w0); ⇑(r0,w1); ⇑(r1,w0); ⇓(r0,w1); ⇓(r1,w0); ⇕(r0)`, returning
`(len(errors) == 0, errors)` together with the final device state. -/
def march_c_test {σ : Type} (T : Transport σ) (startAddr endAddr : Nat) (s : σ) :
    (Bool × List FaultRecord) × σ :=
  let asc := ascRange startAddr endAddr
  let desc := descRange startAddr endAddr
  let s1 := wLoop T (asc.map fun a => (a, 0x0000)) s
  let r2 := rwLoop T "Phase2" (asc.map fun a => (a, 0x0000, 0xFFFF)) s1 []
  let r3 := rwLoop T "Phase3" (asc.map fun a => (a, 0xFFFF, 0x0000)) r2.1 r2.2
  let r4 := rwLoop T "Phase4" (desc.map fun a => (a, 0x0000, 0xFFFF)) r3.1 r3.2
  let r5 := rwLoop T "Phase5" (desc.map fun a => (a, 0xFFFF, 0x0000)) r4.1 r4.2
  let r6 := rLoop T "Phase6" (asc.map fun a => (a, 0x0000)) r5.1 r5.2
  ((r6.2.isEmpty, r6.2), r6.1)

/-- The command trace of one March C run: the events recorded by running
`march_c_test` through an instrumented transport. -/
def marchTrace {σ : Type} (T : Transport σ) (s : σ) (startAddr endAddr : Nat) :
    List Event :=
  (march_c_test (traced T) startAddr endAddr (s, [])).2.2

/-- The fault list of one March C run, phase by phase: for each of phases 2-6,
one record per read that mismatches that phase's expected word, tagged with
that phase's name, in traversal order. -/
def marchFaults {σ : Type} (T : Transport σ) (s : σ) (startAddr endAddr : Nat) :
    List FaultRecord :=
  let asc := ascRange startAddr endAddr
  let desc := descRange startAddr endAddr
  let s1 := wLoop T (asc.map fun a => (a, 0x0000)) s
  let s2 := rwState T (asc.map fun a => (a, 0x0000, 0xFFFF)) s1
  let s3 := rwState T (asc.map fun a => (a, 0xFFFF, 0x0000)) s2
  let s4 := rwState T (desc.map fun a => (a, 0x0000, 0xFFFF)) s3
  let s5 := rwState T (desc.map fun a => (a, 0xFFFF, 0x0000)) s4
  mkFaults "Phase2" (asc.map fun a => (a, 0x0000))
      (rwObs T (asc.map fun a => (a, 0x0000, 0xFFFF)) s1)
    ++ mkFaults "Phase3" (asc.map fun a => (a, 0xFFFF))
      (rwObs T (asc.map fun a => (a, 0xFFFF, 0x0000)) s2)
    ++ mkFaults "Phase4" (desc.map fun a => (a, 0x0000))
      (rwObs T (desc.map fun a => (a, 0x0000, 0xFFFF)) s3)
    ++ mkFaults "Phase5" (desc.map fun a => (a, 0xFFFF))
      (rwObs T (desc.map fun a => (a, 0xFFFF, 0x0000)) s4)
    ++ mkFaults "Phase6" (asc.map fun a => (a, 0x0000))
      (rObs T (asc.map fun a => (a, 0x0000)) s5)

/-- The ideal mock transport of §8: a read returns the word most recently
written to that address; the state is the memory content itself. -/
def idealT : Transport (Nat → Nat) where
  write := fun m a v => fun x => if x = a then v else m x
  read := fun m a => (m a, m)

/-- Walking-ones step list: pattern `1 << i` at address `start + i`,
for `i` in `range(16)` (`patterns = [1 << i for i in range(16)]`). -/
def w1Steps (startAddr : Nat) : List (Nat × Nat) :=
  (List.range 16).map fun i => (startAddr + i, 1 <<< i)

/-- Walking-zeros step list: pattern `~(1 << i) & 0xFFFF` at `start + i`.
Python's two's-complement `~(1 << i) & 0xFFFF` equals, for `i < 16`, the
16-bit complement `(1 <<< i) ^^^ 0xFFFF`. -/
def w0Steps (startAddr : Nat) : List (Nat × Nat) :=
  (List.range 16).map fun i => (startAddr + i, (1 <<< i) ^^^ 0xFFFF)

/-- `walking_ones_test` from `march_test.py`: write all 16 patterns, then
read all 16 addresses back.  The `count` argument is accepted but, as in the
source, never used. -/
def walking_ones_test {σ : Type} (T : Transport σ) (startAddr count : Nat) (s : σ) :
    (Bool × List FaultRecord) × σ :=
  let steps := w1Steps startAddr
  let s1 := wLoop T steps s
  let r := rLoop T "Walking1s" steps s1 []
  ((r.2.isEmpty, r.2), r.1)

/-- `walking_zeros_test` from `march_test.py`: identical traversal with the
complement patterns.  `count` is accepted but never used. -/
def walking_zeros_test {σ : Type} (T : Transport σ) (startAddr count : Nat) (s : σ) :
    (Bool × List FaultRecord) × σ :=
  let steps := w0Steps startAddr
  let s1 := wLoop T steps s
  let r := rLoop T "Walking0s" steps s1 []
  ((r.2.isEmpty, r.2), r.1)

/-- Command trace of a walking-ones run. -/
def w1Trace {σ : Type} (T : Transport σ) (s : σ) (startAddr count : Nat) : List Event :=
  (walking_ones_test (traced T) startAddr count (s, [])).2.2

/-- Command trace of a walking-zeros run. -/
def w0Trace {σ : Type} (T : Transport σ) (s : σ) (startAddr count : Nat) : List Event :=
  (walking_zeros_test (traced T) startAddr count (s, [])).2.2

/-- Checkerboard step list: `0xAAAA` at even loop index `i`, `0x5555` at odd,
address `startAddr + i` (`pattern = 0xAAAA if i % 2 == 0 else 0x5555`). -/
def cbSteps (startAddr n : Nat) : List (Nat × Nat) :=
  (List.range n).map fun i => (startAddr + i, if i % 2 = 0 then 0xAAAA else 0x5555)

/-- Inverse checkerboard step list (`0x5555` at even index, `0xAAAA` at odd). -/
def cbStepsInv (startAddr n : Nat) : List (Nat × Nat) :=
  (List.range n).map fun i => (startAddr + i, if i % 2 = 0 then 0x5555 else 0xAAAA)

/-- `checkerboard_test` from `march_test.py`: write the checkerboard pattern,
verify it, write the inverse pattern, verify again. -/
def checkerboard_test {σ : Type} (T : Transport σ) (startAddr endAddr : Nat) (s : σ) :
    (Bool × List FaultRecord) × σ :=
  let n := endAddr + 1 - startAddr
  let s1 := wLoop T (cbSteps startAddr n) s
  let r1 := rLoop T "Checkerboard" (cbSteps startAddr n) s1 []
  let s2 := wLoop T (cbStepsInv startAddr n) r1.1
  let r2 := rLoop T "InvCheckerboard" (cbStepsInv startAddr n) s2 r1.2
  ((r2.2.isEmpty, r2.2), r2.1)

/-- Command trace of a checkerboard run. -/
def cbTrace {σ : Type} (T : Transport σ) (s : σ) (startAddr endAddr : Nat) : List Event :=
  (checkerboard_test (traced T) startAddr endAddr (s, [])).2.2

/-- The 6 command bytes built by `MRAMUART.write_mram`:
`[0x57, (addr >> 16) & 0x03, (addr >> 8) & 0xFF, addr & 0xFF,
(data >> 8) & 0xFF, data & 0xFF]`. -/
def write_mram_cmd (addr data : Nat) : List Nat :=
  [0x57, (addr >>> 16) &&& 0x03, (addr >>> 8) &&& 0xFF, addr &&& 0xFF,
   (data >>> 8) &&& 0xFF, data &&& 0xFF]

/-- The 4 command bytes built by `MRAMUART.read_mram`:
`[0x52, (addr >> 16) & 0x03, (addr >> 8) & 0xFF, addr & 0xFF]`. -/
def read_mram_cmd (addr : Nat) : List Nat :=
  [0x52, (addr >>> 16) &&& 0x03, (addr >>> 8) &&& 0xFF, addr &&& 0xFF]

/-- Big-endian assembly of a two-byte response:
`data = (response[0] << 8) | response[1]`. -/
def decode_response (b0 b1 : Nat) : Nat :=
  (b0 <<< 8) ||| b1

/-- The response handling of `read_mram` in `march_test.py`: if at least two
response bytes arrived (`some (b0, b1)`), decode them; otherwise return the
in-band sentinel `0xDEAD`. -/
def march_read_mram (resp : Option (Nat × Nat)) : Nat :=
  match resp with
  | some r => decode_response r.1 r.2
  | none => 0xDEAD

/-- The response handling of `read_mram` in `main.py`: decode two bytes, or
return `None` when fewer than two bytes arrived in the wait window. -/
def main_read_mram (resp : Option (Nat × Nat)) : Option Nat :=
  match resp with
  | some r => some (decode_response r.1 r.2)
  | none => none

/-- The `w <addr> <data>` handling of `MRAMTerminal.run` in `mram_test.py`:
reject an out-of-range address or word before building any command bytes,
otherwise encode the write command. -/
def terminal_write_cmd (addr data : Int) : Option (List Nat) :=
  if addr < 0 ∨ addr > 0x3FFFF then none
  else if data < 0 ∨ data > 0xFFFF then none
  else some (write_mram_cmd addr.toNat data.toNat)

/-- The `r <addr>` handling of `MRAMTerminal.run` in `mram_test.py`. -/
def terminal_read_cmd (addr : Int) : Option (List Nat) :=
  if addr < 0 ∨ addr > 0x3FFFF then none
  else some (read_mram_cmd addr.toNat)

/-- The wire events of a read-check-write loop over explicit steps. -/
def rwEvents (steps : List (Nat × Nat × Nat)) : List Event :=
  match steps with
  | [] => []
  | p :: rest => Event.rd p.1 :: Event.wr p.1 p.2.2 :: rwEvents rest

theorem traced_write {σ : Type} (T : Transport σ) (p : σ × List Event) (a v : Nat) :
    (traced T).write p a v = (T.write p.1 a v, p.2 ++ [Event.wr a v]) := rfl

theorem traced_read {σ : Type} (T : Transport σ) (p : σ × List Event) (a : Nat) :
    (traced T).read p a = ((T.read p.1 a).1, ((T.read p.1 a).2, p.2 ++ [Event.rd a])) := rfl

theorem wLoop_traced {σ : Type} (T : Transport σ) :
    ∀ (steps : List (Nat × Nat)) (s : σ) (tr : List Event),
      wLoop (traced T) steps (s, tr) =
        (wLoop T steps s, tr ++ steps.map fun p => Event.wr p.1 p.2) := by
  intro steps
  induction steps with
  | nil => intro s tr; simp [wLoop]
  | cons p rest ih =>
      intro s tr
      simp only [wLoop, traced_write]
      rw [ih]
      simp

theorem rwLoop_eq {σ : Type} (T : Transport σ) (tag : String) :
    ∀ (steps : List (Nat × Nat × Nat)) (s : σ) (errs : List FaultRecord),
      rwLoop T tag steps s errs =
        (rwState T steps s,
         errs ++ mkFaults tag (steps.map fun p => (p.1, p.2.1)) (rwObs T steps s)) := by
  intro steps
  induction steps with
  | nil => intro s errs; simp [rwLoop, rwState, rwObs, mkFaults]
  | cons p rest ih =>
      intro s errs
      simp only [rwLoop, rwState, rwObs, mkFaults, List.map_cons]
      rw [ih]
      by_cases h : (T.read s p.1).1 = p.2.1 <;> simp [h]

theorem rLoop_eq {σ : Type} (T : Transport σ) (tag : String) :
    ∀ (steps : List (Nat × Nat)) (s : σ) (errs : List FaultRecord),
      rLoop T tag steps s errs =
        (rState T steps s, errs ++ mkFaults tag steps (rObs T steps s)) := by
  intro steps
  induction steps with
  | nil => intro s errs; simp [rLoop, rState, rObs, mkFaults]
  | cons p rest ih =>
      intro s errs
      simp only [rLoop, rState, rObs, mkFaults]
      rw [ih]
      by_cases h : (T.read s p.1).1 = p.2 <;> simp [h]

theorem rwState_traced {σ : Type} (T : Transport σ) :
    ∀ (steps : List (Nat × Nat × Nat)) (s : σ) (tr : List Event),
      rwState (traced T) steps (s, tr) =
        (rwState T steps s, tr ++ rwEvents steps) := by
  intro steps
  induction steps with
  | nil => intro s tr; simp [rwState, rwEvents]
  | cons p rest ih =>
      intro s tr
      simp only [rwState, rwEvents, traced_read, traced_write]
      rw [ih]
      simp

theorem rwObs_traced {σ : Type} (T : Transport σ) :
    ∀ (steps : List (Nat × Nat × Nat)) (s : σ) (tr : List Event),
      rwObs (traced T) steps (s, tr) = rwObs T steps s := by
  intro steps
  induction steps with
  | nil => intro s tr; simp [rwObs]
  | cons p rest ih =>
      intro s tr
      simp only [rwObs, traced_read, traced_write]
      rw [ih]

theorem rState_traced {σ : Type} (T : Transport σ) :
    ∀ (steps : List (Nat × Nat)) (s : σ) (tr : List Event),
      rState (traced T) steps (s, tr) =
        (rState T steps s, tr ++ steps.map fun p => Event.rd p.1) := by
  intro steps
  induction steps with
  | nil => intro s tr; simp [rState]
  | cons p rest ih =>
      intro s tr
      simp only [rState, traced_read]
      rw [ih]
      simp

theorem rObs_traced {σ : Type} (T : Transport σ) :
    ∀ (steps : List (Nat × Nat)) (s : σ) (tr : List Event),
      rObs (traced T) steps (s, tr) = rObs T steps s := by
  intro steps
  induction steps with
  | nil => intro s tr; simp [rObs]
  | cons p rest ih =>
      intro s tr
      simp only [rObs, traced_read]
      rw [ih]

theorem mkFaults_phase (tag : String) :
    ∀ (checks : List (Nat × Nat)) (obs : List Nat) (r : FaultRecord),
      r ∈ mkFaults tag checks obs → r.phase = tag := by
  intro checks
  induction checks with
  | nil => intro obs r h; simp [mkFaults] at h
  | cons c cs ih =>
      intro obs r h
      cases obs with
      | nil => simp [mkFaults] at h
      | cons d ds =>
          by_cases hd : d = c.2
          · simp [mkFaults, hd] at h
            exact ih ds r h
          · simp [mkFaults, hd] at h
            rcases h with h | h
            · rw [h]
            · exact ih ds r h

theorem rwEvents_map_const (wval : Nat) (e : Nat) :
    ∀ (l : List Nat),
      rwEvents (l.map fun a => (a, e, wval)) = phaseEvents l wval := by
  intro l
  induction l with
  | nil => simp [rwEvents, phaseEvents]
  | cons a rest ih => simp [rwEvents, phaseEvents, ih]

theorem phaseEvents_length (wval : Nat) :
    ∀ (l : List Nat), (phaseEvents l wval).length = 2 * l.length := by
  intro l
  induction l with
  | nil => simp [phaseEvents]
  | cons a rest ih => simp [phaseEvents, ih]; omega

theorem ascRange_chain (a b : Nat) : List.Chain' (· < ·) (ascRange a b) :=
  (List.pairwise_lt_range' a (b + 1 - a)).chain'

theorem ascRange_nodup (a b : Nat) : (ascRange a b).Nodup :=
  List.nodup_range' a (b + 1 - a)

theorem descRange_chain (a b : Nat) : List.Chain' (· > ·) (descRange a b) :=
  (List.pairwise_reverse.mpr (List.pairwise_lt_range' a (b + 1 - a))).chain'

theorem descRange_nodup (a b : Nat) : (descRange a b).Nodup :=
  List.nodup_reverse.mpr (ascRange_nodup a b)

theorem mem_descRange (a b x : Nat) : x ∈ descRange a b ↔ x ∈ ascRange a b :=
  List.mem_reverse

theorem ascRange_length (a b : Nat) : (ascRange a b).length = b + 1 - a :=
  List.length_range' a 1 (b + 1 - a)

theorem descRange_length (a b : Nat) : (descRange a b).length = b + 1 - a := by
  simp [descRange, ascRange_length]

theorem rwLoop_traced {σ : Type} (T : Transport σ) (tag : String)
    (steps : List (Nat × Nat × Nat)) (s : σ) (tr : List Event) (errs : List FaultRecord) :
    rwLoop (traced T) tag steps (s, tr) errs =
      ((rwState T steps s, tr ++ rwEvents steps),
       errs ++ mkFaults tag (steps.map fun p => (p.1, p.2.1)) (rwObs T steps s)) := by
  rw [rwLoop_eq, rwState_traced, rwObs_traced]

theorem rLoop_traced {σ : Type} (T : Transport σ) (tag : String)
    (steps : List (Nat × Nat)) (s : σ) (tr : List Event) (errs : List FaultRecord) :
    rLoop (traced T) tag steps (s, tr) errs =
      ((rState T steps s, tr ++ steps.map fun p => Event.rd p.1),
       errs ++ mkFaults tag steps (rObs T steps s)) := by
  rw [rLoop_eq, rState_traced, rObs_traced]

theorem idealT_write_eq (m : Nat → Nat) (a v : Nat) :
    idealT.write m a v = fun x => if x = a then v else m x := rfl

theorem idealT_read_eq (m : Nat → Nat) (a : Nat) :
    idealT.read m a = (m a, m) := rfl

theorem wLoop_ideal (v : Nat) :
    ∀ (l : List Nat) (m : Nat → Nat),
      wLoop idealT (l.map fun a => (a, v)) m = fun x => if x ∈ l then v else m x := by
  intro l
  induction l with
  | nil => intro m; funext x; simp [wLoop]
  | cons a rest ih =>
      intro m
      simp only [List.map_cons, wLoop, idealT_write_eq]
      rw [ih]
      funext x
      by_cases hx : x ∈ rest <;> by_cases hxa : x = a <;>
        simp [hx, hxa, List.mem_cons]

theorem rwLoop_ideal (tag : String) (e w : Nat) :
    ∀ (l : List Nat) (m m' : Nat → Nat) (errs : List FaultRecord),
      (∀ x ∈ l, m x = e) → l.Nodup → (∀ x, m' x = if x ∈ l then w else m x) →
      rwLoop idealT tag (l.map fun a => (a, e, w)) m errs = (m', errs) := by
  intro l
  induction l with
  | nil =>
      intro m m' errs _ _ hm'
      simp only [List.map_nil, rwLoop]
      congr 1
      funext x
      rw [hm' x]
      simp
  | cons a rest ih =>
      intro m m' errs hm hnd hm'
      obtain ⟨hna, hndr⟩ := List.nodup_cons.mp hnd
      have hma : m a = e := hm a (List.mem_cons_self a rest)
      simp only [List.map_cons, rwLoop, idealT_read_eq]
      rw [if_neg (by simp [hma])]
      rw [idealT_write_eq]
      refine ih (fun x => if x = a then w else m x) m' errs ?_ hndr ?_
      · intro x hx
        have hxa : x ≠ a := by
          intro hcontra
          exact hna (hcontra ▸ hx)
        simp [hxa]
        exact hm x (List.mem_cons_of_mem a hx)
      · intro x
        rw [hm' x]
        by_cases hx : x ∈ rest <;> by_cases hxa : x = a <;>
          simp [hx, hxa, List.mem_cons]

theorem rLoop_ideal (tag : String) :
    ∀ (checks : List (Nat × Nat)) (m : Nat → Nat) (errs : List FaultRecord),
      (∀ c ∈ checks, m c.1 = c.2) →
      rLoop idealT tag checks m errs = (m, errs) := by
  intro checks
  induction checks with
  | nil => intro m errs _; simp [rLoop]
  | cons c cs ih =>
      intro m errs hm
      have hc : m c.1 = c.2 := hm c (List.mem_cons_self c cs)
      simp only [rLoop, idealT_read_eq]
      rw [if_neg (by simp [hc])]
      exact ih m errs fun x hx => hm x (List.mem_cons_of_mem c hx)

theorem march_trace_eq {σ : Type} (T : Transport σ) (s : σ) (a b : Nat) :
    marchTrace T s a b =
      ((ascRange a b).map fun x => Event.wr x 0x0000)
        ++ phaseEvents (ascRange a b) 0xFFFF
        ++ phaseEvents (ascRange a b) 0x0000
        ++ phaseEvents (descRange a b) 0xFFFF
        ++ phaseEvents (descRange a b) 0x0000
        ++ ((ascRange a b).map fun x => Event.rd x) := by
  simp only [marchTrace, march_c_test, wLoop_traced, rwLoop_traced, rLoop_traced]
  simp [rwEvents_map_const, List.map_map, Function.comp_def]

theorem march_errors_eq {σ : Type} (T : Transport σ) (s : σ) (a b : Nat) :
    (march_c_test T a b s).1.2 = marchFaults T s a b := by
  simp only [march_c_test, marchFaults, rwLoop_eq, rLoop_eq]
  simp [List.map_map, Function.comp_def, List.append_assoc]

theorem march_ideal (a b : Nat) (m0 : Nat → Nat) :
    (march_c_test idealT a b m0).1 = (true, []) := by
  have hndA := ascRange_nodup a b
  have hndD := descRange_nodup a b
  have h1 := wLoop_ideal 0x0000 (ascRange a b) m0
  have h2 := rwLoop_ideal "Phase2" 0x0000 0xFFFF (ascRange a b)
      (fun x => if x ∈ ascRange a b then 0x0000 else m0 x)
      (fun x => if x ∈ ascRange a b then 0xFFFF else m0 x) []
      (fun x hx => by simp [hx]) hndA
      (fun x => by by_cases hx : x ∈ ascRange a b <;> simp [hx])
  have h3 := rwLoop_ideal "Phase3" 0xFFFF 0x0000 (ascRange a b)
      (fun x => if x ∈ ascRange a b then 0xFFFF else m0 x)
      (fun x => if x ∈ ascRange a b then 0x0000 else m0 x) []
      (fun x hx => by simp [hx]) hndA
      (fun x => by by_cases hx : x ∈ ascRange a b <;> simp [hx])
  have h4 := rwLoop_ideal "Phase4" 0x0000 0xFFFF (descRange a b)
      (fun x => if x ∈ ascRange a b then 0x0000 else m0 x)
      (fun x => if x ∈ ascRange a b then 0xFFFF else m0 x) []
      (fun x hx => by simp [(mem_descRange a b x).mp hx]) hndD
      (fun x => by
        by_cases hx : x ∈ ascRange a b <;> simp [hx, mem_descRange a b x])
  have h5 := rwLoop_ideal "Phase5" 0xFFFF 0x0000 (descRange a b)
      (fun x => if x ∈ ascRange a b then 0xFFFF else m0 x)
      (fun x => if x ∈ ascRange a b then 0x0000 else m0 x) []
      (fun x hx => by simp [(mem_descRange a b x).mp hx]) hndD
      (fun x => by
        by_cases hx : x ∈ ascRange a b <;> simp [hx, mem_descRange a b x])
  have h6 := rLoop_ideal "Phase6" ((ascRange a b).map fun x => (x, 0x0000))
      (fun x => if x ∈ ascRange a b then 0x0000 else m0 x) []
      (by
        intro c hc
        obtain ⟨x, hx, rfl⟩ := List.mem_map.mp hc
        simp [hx])
  simp only [march_c_test, h1, h2, h3, h4, h5, h6]
  simp

theorem and_mod_256 (n : Nat) : n &&& 0xFF = n % 256 := by
  have h := Nat.and_pow_two_sub_one_eq_mod n 8
  norm_num at h
  exact h

theorem and_mod_4 (n : Nat) : n &&& 0x03 = n % 4 := by
  have h := Nat.and_pow_two_sub_one_eq_mod n 2
  norm_num at h
  exact h

theorem shiftLeft_lor_eq_add :
    ∀ (n hi lo : Nat), lo < 2 ^ n → (hi <<< n) ||| lo = hi * 2 ^ n + lo := by
  intro n
  induction n with
  | zero =>
      intro hi lo h
      have hlo : lo = 0 := Nat.lt_one_iff.mp (by simpa using h)
      subst hlo
      simp [Nat.shiftLeft_eq]
  | succ n ih =>
      intro hi lo h
      have hhi : hi <<< (n + 1) = Nat.bit false (hi <<< n) := by
        simp [Nat.shiftLeft_eq, Nat.bit_val, Nat.pow_succ]
        ring
      have hlo : Nat.bit (decide (lo % 2 = 1)) (lo >>> 1) = lo :=
        Nat.bit_decide_mod_two_eq_one_shiftRight_one lo
      have h2 : lo >>> 1 < 2 ^ n := by
        rw [Nat.shiftRight_eq_div_pow, pow_one]
        exact (Nat.div_lt_iff_lt_mul (by norm_num)).mpr (by rw [← pow_succ]; exact h)
      have hsr : lo >>> 1 = lo / 2 := by
        rw [Nat.shiftRight_eq_div_pow, pow_one]
      calc (hi <<< (n + 1)) ||| lo
          = Nat.bit false (hi <<< n) ||| Nat.bit (decide (lo % 2 = 1)) (lo >>> 1) := by
            rw [hhi, hlo]
        _ = Nat.bit (false || decide (lo % 2 = 1)) ((hi <<< n) ||| (lo >>> 1)) :=
            Nat.lor_bit false (hi <<< n) (decide (lo % 2 = 1)) (lo >>> 1)
        _ = Nat.bit (decide (lo % 2 = 1)) (hi * 2 ^ n + lo / 2) := by
            rw [Bool.false_or, ih hi (lo >>> 1) h2, hsr]
        _ = 2 * (hi * 2 ^ n + lo / 2) + (decide (lo % 2 = 1)).toNat :=
            Nat.bit_val (decide (lo % 2 = 1)) (hi * 2 ^ n + lo / 2)
        _ = hi * 2 ^ (n + 1) + lo := by
            rw [pow_succ, ← mul_assoc]
            generalize hi * 2 ^ n = q
            rcases Nat.mod_two_eq_zero_or_one lo with hm | hm <;> simp [hm] <;> omega

/-- The exact byte-level contract of `encode_write`/`encode_read`: the
command byte lists, the 2-bit bound on the address-high byte, and exact
reassembly of the 18-bit address from the three address bytes. -/
def EncodeSpec (addr w : Nat) : Prop :=
  write_mram_cmd addr w =
      [0x57, (addr >>> 16) &&& 0x03, (addr >>> 8) &&& 0xFF, addr &&& 0xFF,
       (w >>> 8) &&& 0xFF, w &&& 0xFF] ∧
  read_mram_cmd addr =
      [0x52, (addr >>> 16) &&& 0x03, (addr >>> 8) &&& 0xFF, addr &&& 0xFF] ∧
  (addr >>> 16) &&& 0x03 < 4 ∧
  ((addr >>> 16) &&& 0x03) * 0x10000 + ((addr >>> 8) &&& 0xFF) * 0x100 + (addr &&& 0xFF)
    = addr

/-- C3: for every address in `[0, 0x3FFFF]` and word in `[0, 0xFFFF]`, the
write command is exactly the 6 listed bytes and the read command exactly the
4 listed bytes; the address-high byte has only its low 2 bits possibly set,
and the three address bytes reassemble to the original address exactly. -/
theorem C3_encode_exact (addr w : Nat) (ha : addr ≤ 0x3FFFF) (hw : w ≤ 0xFFFF) :
    EncodeSpec addr w := by
  refine ⟨rfl, rfl, ?_, ?_⟩
  · rw [and_mod_4]
    exact Nat.mod_lt _ (by norm_num)
  · rw [and_mod_4, and_mod_256, and_mod_256, Nat.shiftRight_eq_div_pow,
      Nat.shiftRight_eq_div_pow]
    norm_num
    omega

/-- Witness for C3 at address `0x2ABCD`, word `0x1234`. -/
theorem C3_encode_exact_witness :
    ((0x2ABCD : Nat) ≤ 0x3FFFF ∧ (0x1234 : Nat) ≤ 0xFFFF) ∧ EncodeSpec 0x2ABCD 0x1234 :=
  ⟨by decide, C3_encode_exact 0x2ABCD 0x1234 (by decide) (by decide)⟩

/-- C4: decoding the two-byte big-endian encoding of a 16-bit word yields the
word back: splitting into `(w >> 8) & 0xFF` and `w & 0xFF` and reassembling
with `(hi << 8) | lo` is the identity on `[0, 0xFFFF]`. -/
theorem C4_decode_roundtrip (w : Nat) (h : w ≤ 0xFFFF) :
    decode_response ((w >>> 8) &&& 0xFF) (w &&& 0xFF) = w := by
  unfold decode_response
  have h1 : (w >>> 8) &&& 0xFF = w / 256 % 256 := by
    rw [and_mod_256, Nat.shiftRight_eq_div_pow]
  have hlt : w &&& 0xFF < 2 ^ 8 := by
    rw [and_mod_256]
    have h256 : (2 : Nat) ^ 8 = 256 := by norm_num
    rw [h256]
    exact Nat.mod_lt w (by norm_num)
  rw [shiftLeft_lor_eq_add 8 _ _ hlt, h1, and_mod_256]
  have h256 : (2 : Nat) ^ 8 = 256 := by norm_num
  rw [h256]
  omega

/-- Witness for C4 at word `0xABCD`. -/
theorem C4_decode_roundtrip_witness :
    (0xABCD : Nat) ≤ 0xFFFF ∧
    decode_response ((0xABCD >>> 8) &&& 0xFF) (0xABCD &&& 0xFF) = 0xABCD :=
  ⟨by decide, C4_decode_roundtrip 0xABCD (by decide)⟩

/-- C5 counterexample: `MRAMUART.write_mram` does not reject an out-of-range
address; it masks it.  At address `0x40000` (one past the valid range) the
engine produces and sends the same 6 command bytes as for address `0x00000`:
the value is silently truncated, and command bytes are sent. -/
theorem C5_counterexample :
    write_mram_cmd 0x40000 0x0000 = write_mram_cmd 0x00000 0x0000 ∧
    write_mram_cmd 0x40000 0x0000 = [0x57, 0x00, 0x00, 0x00, 0x00, 0x00] := by
  decide

/-- C5 (amended): the interactive terminal of `mram_test.py` rejects any
out-of-range address or word before encoding, and issues no command bytes
for it; the engine-level `write_mram` itself masks instead of rejecting. -/
theorem C5_terminal_range_check (addr data : Int)
    (h : addr < 0 ∨ addr > 0x3FFFF ∨ data < 0 ∨ data > 0xFFFF) :
    terminal_write_cmd addr data = none ∧
    ((addr < 0 ∨ addr > 0x3FFFF) → terminal_read_cmd addr = none) := by
  constructor
  · unfold terminal_write_cmd
    rcases h with h | h | h | h
    · rw [if_pos (Or.inl h)]
    · rw [if_pos (Or.inr h)]
    · by_cases ha : addr < 0 ∨ addr > 0x3FFFF
      · rw [if_pos ha]
      · rw [if_neg ha, if_pos (Or.inl h)]
    · by_cases ha : addr < 0 ∨ addr > 0x3FFFF
      · rw [if_pos ha]
      · rw [if_neg ha, if_pos (Or.inr h)]
  · intro ha
    unfold terminal_read_cmd
    rw [if_pos ha]

/-- Witness for the amended C5 at address `0x40000`, word `0`. -/
theorem C5_terminal_range_check_witness :
    ((0x40000 : Int) < 0 ∨ (0x40000 : Int) > 0x3FFFF ∨ (0 : Int) < 0 ∨ (0 : Int) > 0xFFFF) ∧
    (terminal_write_cmd 0x40000 0 = none ∧
     (((0x40000 : Int) < 0 ∨ (0x40000 : Int) > 0x3FFFF) → terminal_read_cmd 0x40000 = none)) :=
  ⟨by decide, C5_terminal_range_check 0x40000 0 (by decide)⟩

/-- C6 counterexample: in `march_test.py` a timed-out read yields the in-band
sentinel `0xDEAD`, which is itself a legitimate 16-bit word and equal to the
decoding of a genuine `0xDEAD` response: a timeout is not distinct from every
16-bit word. -/
theorem C6_counterexample :
    march_read_mram none = 0xDEAD ∧
    march_read_mram (some (0xDE, 0xAD)) = 0xDEAD ∧
    (0xDEAD : Nat) ≤ 0xFFFF := by
  decide

/-- C6 (amended): in `main.py` a timed-out read yields `None`, which is
distinct from every decoded word `some w`; in `march_test.py` a timed-out
read instead yields the word `0xDEAD`. -/
theorem C6_timeout_representation :
    main_read_mram none = none ∧
    (∀ b0 b1 : Nat, main_read_mram (some (b0, b1)) = some (decode_response b0 b1)) ∧
    (∀ w : Nat, main_read_mram none ≠ some w) ∧
    march_read_mram none = 0xDEAD := by
  refine ⟨rfl, fun b0 b1 => rfl, fun w => by simp [main_read_mram], rfl⟩

/-- The C1 property of one March C run: the command trace is exactly the six
phases in order (phase 1 writes `0x0000` ascending; phases 2-5 are
read-then-write sweeps with the listed values, phases 4-5 over the reversed
address list; phase 6 reads ascending); the ascending list is strictly
increasing and the descending list strictly decreasing; and the returned
fault list is exactly `marchFaults`: per phase, one record per mismatching
read, tagged with that phase's name. -/
def MarchCPhasesSpec {σ : Type} (T : Transport σ) (s : σ) (a b : Nat) : Prop :=
  marchTrace T s a b =
      ((ascRange a b).map fun x => Event.wr x 0x0000)
        ++ phaseEvents (ascRange a b) 0xFFFF
        ++ phaseEvents (ascRange a b) 0x0000
        ++ phaseEvents (descRange a b) 0xFFFF
        ++ phaseEvents (descRange a b) 0x0000
        ++ ((ascRange a b).map fun x => Event.rd x) ∧
  List.Chain' (· < ·) (ascRange a b) ∧
  List.Chain' (· > ·) (descRange a b) ∧
  (march_c_test T a b s).1.2 = marchFaults T s a b ∧
  ∀ r ∈ (march_c_test T a b s).1.2,
    r.phase = "Phase2" ∨ r.phase = "Phase3" ∨ r.phase = "Phase4" ∨
      r.phase = "Phase5" ∨ r.phase = "Phase6"

/-- C1: for every range with `start ≤ end` and every transport, one March C
run executes exactly the six phases in order with the stated values and
traversal directions, and each read mismatch yields exactly one fault record
tagged with its phase's name. -/
theorem C1_march_c_phases {σ : Type} (T : Transport σ) (s : σ) (a b : Nat)
    (h : a ≤ b) : MarchCPhasesSpec T s a b := by
  refine ⟨march_trace_eq T s a b, ascRange_chain a b, descRange_chain a b,
    march_errors_eq T s a b, ?_⟩
  intro r hr
  rw [march_errors_eq] at hr
  simp only [marchFaults, List.mem_append] at hr
  rcases hr with ((((h2 | h3) | h4) | h5) | h6)
  · exact Or.inl (mkFaults_phase _ _ _ r h2)
  · exact Or.inr (Or.inl (mkFaults_phase _ _ _ r h3))
  · exact Or.inr (Or.inr (Or.inl (mkFaults_phase _ _ _ r h4)))
  · exact Or.inr (Or.inr (Or.inr (Or.inl (mkFaults_phase _ _ _ r h5))))
  · exact Or.inr (Or.inr (Or.inr (Or.inr (mkFaults_phase _ _ _ r h6))))

/-- Witness for C1: the ideal transport over the range `[0, 2]`. -/
theorem C1_march_c_phases_witness :
    (0 : Nat) ≤ 2 ∧ MarchCPhasesSpec idealT (fun _ => 0x0000) 0 2 :=
  ⟨by decide, C1_march_c_phases idealT (fun _ => 0x0000) 0 2 (by decide)⟩

/-- C2: against the ideal mock transport (a read returns the last written
word, all cells defaulting to `0x0000`), March C over any non-empty range
returns an empty fault list and the boolean `true`. -/
theorem C2_march_ideal_no_faults (a b : Nat) (h : a ≤ b) :
    (march_c_test idealT a b (fun _ => 0x0000)).1 = (true, []) :=
  march_ideal a b (fun _ => 0x0000)

/-- Witness for C2 over the range `[0, 3]`. -/
theorem C2_march_ideal_no_faults_witness :
    (0 : Nat) ≤ 3 ∧ (march_c_test idealT 0 3 (fun _ => 0x0000)).1 = (true, []) :=
  ⟨by decide, C2_march_ideal_no_faults 0 3 (by decide)⟩

/-- C9: a read mismatch or timeout never aborts a March C run.  The command
trace is the same for any two transports and any device behaviours (so every
scheduled step executes regardless of what the reads return), its length is
exactly the `10 * n` scheduled operations, and the per-phase loops only ever
append fault records to the running list and continue. -/
theorem C9_no_abort_completeness {σ σ' : Type} (T : Transport σ) (T' : Transport σ')
    (s : σ) (s' : σ') (a b : Nat) :
    marchTrace T s a b = marchTrace T' s' a b ∧
    (marchTrace T s a b).length = 10 * (b + 1 - a) ∧
    (∀ (tag : String) (steps : List (Nat × Nat × Nat)) (s0 : σ) (errs : List FaultRecord),
      (rwLoop T tag steps s0 errs).2 =
        errs ++ mkFaults tag (steps.map fun p => (p.1, p.2.1)) (rwObs T steps s0)) ∧
    (∀ (tag : String) (checks : List (Nat × Nat)) (s0 : σ) (errs : List FaultRecord),
      (rLoop T tag checks s0 errs).2 = errs ++ mkFaults tag checks (rObs T checks s0)) := by
  refine ⟨?_, ?_, ?_, ?_⟩
  · rw [march_trace_eq, march_trace_eq]
  · rw [march_trace_eq]
    simp [phaseEvents_length, ascRange_length, descRange_length]
    omega
  · intro tag steps s0 errs
    rw [rwLoop_eq]
  · intro tag checks s0 errs
    rw [rLoop_eq]

theorem w1_trace_eq {σ : Type} (T : Transport σ) (s : σ) (a c : Nat) :
    w1Trace T s a c =
      ((w1Steps a).map fun p => Event.wr p.1 p.2)
        ++ ((w1Steps a).map fun p => Event.rd p.1) := by
  simp only [w1Trace, walking_ones_test, wLoop_traced, rLoop_traced]
  simp

theorem w0_trace_eq {σ : Type} (T : Transport σ) (s : σ) (a c : Nat) :
    w0Trace T s a c =
      ((w0Steps a).map fun p => Event.wr p.1 p.2)
        ++ ((w0Steps a).map fun p => Event.rd p.1) := by
  simp only [w0Trace, walking_zeros_test, wLoop_traced, rLoop_traced]
  simp

theorem w1_errors_eq {σ : Type} (T : Transport σ) (s : σ) (a c : Nat) :
    (walking_ones_test T a c s).1.2 =
      mkFaults "Walking1s" (w1Steps a) (rObs T (w1Steps a) (wLoop T (w1Steps a) s)) := by
  simp only [walking_ones_test, rLoop_eq]
  simp

theorem w0_errors_eq {σ : Type} (T : Transport σ) (s : σ) (a c : Nat) :
    (walking_zeros_test T a c s).1.2 =
      mkFaults "Walking0s" (w0Steps a) (rObs T (w0Steps a) (wLoop T (w0Steps a) s)) := by
  simp only [walking_zeros_test, rLoop_eq]
  simp

/-- C8: walking-ones writes exactly the 16 patterns `1 << i`, pattern `1 << i`
to address `start + i`, all 16 writes strictly before the 16 read-backs, each
read compared against its own pattern; the patterns are pairwise distinct;
and walking-zeros performs the identical traversal with exactly the
complement patterns. -/
theorem C8_walking_patterns {σ : Type} (T : Transport σ) (s : σ) (a c : Nat) :
    w1Steps a = ((List.range 16).map fun i => (a + i, 1 <<< i)) ∧
    ((List.range 16).map fun i => (1 : Nat) <<< i).Nodup ∧
    w1Trace T s a c =
        ((w1Steps a).map fun p => Event.wr p.1 p.2)
          ++ ((w1Steps a).map fun p => Event.rd p.1) ∧
    (walking_ones_test T a c s).1.2 =
        mkFaults "Walking1s" (w1Steps a) (rObs T (w1Steps a) (wLoop T (w1Steps a) s)) ∧
    w0Steps a = ((w1Steps a).map fun p => (p.1, p.2 ^^^ 0xFFFF)) ∧
    ((List.range 16).map fun i => ((1 : Nat) <<< i) ^^^ 0xFFFF) =
        ((List.range 16).map fun i => 0xFFFF - (1 <<< i)) ∧
    w0Trace T s a c =
        ((w0Steps a).map fun p => Event.wr p.1 p.2)
          ++ ((w0Steps a).map fun p => Event.rd p.1) ∧
    (walking_zeros_test T a c s).1.2 =
        mkFaults "Walking0s" (w0Steps a) (rObs T (w0Steps a) (wLoop T (w0Steps a) s)) := by
  refine ⟨rfl, by decide, w1_trace_eq T s a c, w1_errors_eq T s a c, ?_, by decide,
    w0_trace_eq T s a c, w0_errors_eq T s a c⟩
  simp [w0Steps, w1Steps, List.map_map, Function.comp_def]

/-- C10: the `count` parameter of the walking tests is irrelevant — for any
two values of `count`, the full results (and hence the issued command
sequences) coincide — and each test touches exactly the 16 addresses
`start .. start + 15`, once in the write pass and once in the read pass. -/
theorem C10_count_irrelevant {σ : Type} (T : Transport σ) (s : σ) (a c1 c2 : Nat) :
    walking_ones_test T a c1 s = walking_ones_test T a c2 s ∧
    walking_zeros_test T a c1 s = walking_zeros_test T a c2 s ∧
    (w1Trace T s a c1).map eventAddr = List.range' a 16 ++ List.range' a 16 ∧
    (w0Trace T s a c1).map eventAddr = List.range' a 16 ++ List.range' a 16 := by
  refine ⟨rfl, rfl, ?_, ?_⟩
  · rw [w1_trace_eq]
    simp [w1Steps, eventAddr, List.map_map, Function.comp_def, List.range'_eq_map_range]
  · rw [w0_trace_eq]
    simp [w0Steps, eventAddr, List.map_map, Function.comp_def, List.range'_eq_map_range]

theorem cbSteps_parity (a b : Nat) :
    cbSteps a (b + 1 - a) =
      (ascRange a b).map fun x => (x, if x % 2 = a % 2 then 0xAAAA else 0x5555) := by
  unfold cbSteps ascRange
  rw [List.range'_eq_map_range, List.map_map]
  refine congrArg (fun f => List.map f (List.range (b + 1 - a))) (funext fun i => ?_)
  show ((a + i : Nat), if i % 2 = 0 then (0xAAAA : Nat) else 0x5555) =
    ((a + i : Nat), if (a + i) % 2 = a % 2 then (0xAAAA : Nat) else 0x5555)
  have hiff : (i % 2 = 0) ↔ ((a + i) % 2 = a % 2) := by omega
  exact congrArg (Prod.mk (a + i)) (if_congr hiff rfl rfl)

theorem cbStepsInv_parity (a b : Nat) :
    cbStepsInv a (b + 1 - a) =
      (ascRange a b).map fun x => (x, if x % 2 = a % 2 then 0x5555 else 0xAAAA) := by
  unfold cbStepsInv ascRange
  rw [List.range'_eq_map_range, List.map_map]
  refine congrArg (fun f => List.map f (List.range (b + 1 - a))) (funext fun i => ?_)
  show ((a + i : Nat), if i % 2 = 0 then (0x5555 : Nat) else 0xAAAA) =
    ((a + i : Nat), if (a + i) % 2 = a % 2 then (0x5555 : Nat) else 0xAAAA)
  have hiff : (i % 2 = 0) ↔ ((a + i) % 2 = a % 2) := by omega
  exact congrArg (Prod.mk (a + i)) (if_congr hiff rfl rfl)

theorem cbStepsInv_complement (a n : Nat) :
    cbStepsInv a n = (cbSteps a n).map fun p => (p.1, 0xFFFF - p.2) := by
  unfold cbSteps cbStepsInv
  rw [List.map_map]
  refine congrArg (fun f => List.map f (List.range n)) (funext fun i => ?_)
  by_cases h : i % 2 = 0 <;> simp [h]

theorem cbSteps_fst (a b : Nat) :
    (cbSteps a (b + 1 - a)).map Prod.fst = ascRange a b := by
  rw [cbSteps_parity, List.map_map]
  simp [Function.comp_def]

theorem cb_trace_eq {σ : Type} (T : Transport σ) (s : σ) (a b : Nat) :
    cbTrace T s a b =
      ((cbSteps a (b + 1 - a)).map fun p => Event.wr p.1 p.2)
        ++ ((cbSteps a (b + 1 - a)).map fun p => Event.rd p.1)
        ++ ((cbStepsInv a (b + 1 - a)).map fun p => Event.wr p.1 p.2)
        ++ ((cbStepsInv a (b + 1 - a)).map fun p => Event.rd p.1) := by
  simp only [cbTrace, checkerboard_test, wLoop_traced, rLoop_traced]
  simp [List.append_assoc]

theorem cb_errors_eq {σ : Type} (T : Transport σ) (s : σ) (a b : Nat) :
    (checkerboard_test T a b s).1.2 =
      mkFaults "Checkerboard" (cbSteps a (b + 1 - a))
          (rObs T (cbSteps a (b + 1 - a)) (wLoop T (cbSteps a (b + 1 - a)) s))
        ++ mkFaults "InvCheckerboard" (cbStepsInv a (b + 1 - a))
          (rObs T (cbStepsInv a (b + 1 - a))
            (wLoop T (cbStepsInv a (b + 1 - a))
              (rState T (cbSteps a (b + 1 - a))
                (wLoop T (cbSteps a (b + 1 - a)) s)))) := by
  simp only [checkerboard_test, rLoop_eq]
  simp

/-- C7: the checkerboard run is write-pass, verify-pass, inverse write-pass,
inverse verify-pass; the pass-1 pattern of an address is a function of that
address's parity (`0xAAAA`/`0x5555`) and the pass-2 pattern the exact inverse,
so every address of the range — visited exactly once per pass — is checked
once against `0xAAAA` and once against `0x5555` across the two passes. -/
theorem C7_checkerboard {σ : Type} (T : Transport σ) (s : σ) (a b : Nat) :
    cbTrace T s a b =
        ((cbSteps a (b + 1 - a)).map fun p => Event.wr p.1 p.2)
          ++ ((cbSteps a (b + 1 - a)).map fun p => Event.rd p.1)
          ++ ((cbStepsInv a (b + 1 - a)).map fun p => Event.wr p.1 p.2)
          ++ ((cbStepsInv a (b + 1 - a)).map fun p => Event.rd p.1) ∧
    cbSteps a (b + 1 - a) =
        ((ascRange a b).map fun x => (x, if x % 2 = a % 2 then 0xAAAA else 0x5555)) ∧
    cbStepsInv a (b + 1 - a) =
        ((ascRange a b).map fun x => (x, if x % 2 = a % 2 then 0x5555 else 0xAAAA)) ∧
    cbStepsInv a (b + 1 - a) = ((cbSteps a (b + 1 - a)).map fun p => (p.1, 0xFFFF - p.2)) ∧
    (cbSteps a (b + 1 - a)).map Prod.fst = ascRange a b ∧
    (ascRange a b).Nodup ∧
    (checkerboard_test T a b s).1.2 =
      mkFaults "Checkerboard" (cbSteps a (b + 1 - a))
          (rObs T (cbSteps a (b + 1 - a)) (wLoop T (cbSteps a (b + 1 - a)) s))
        ++ mkFaults "InvCheckerboard" (cbStepsInv a (b + 1 - a))
          (rObs T (cbStepsInv a (b + 1 - a))
            (wLoop T (cbStepsInv a (b + 1 - a))
              (rState T (cbSteps a (b + 1 - a))
                (wLoop T (cbSteps a (b + 1 - a)) s)))) :=
  ⟨cb_trace_eq T s a b, cbSteps_parity a b, cbStepsInv_parity a b,
    cbStepsInv_complement a (b + 1 - a), cbSteps_fst a b, ascRange_nodup a b,
    cb_errors_eq T s a b⟩
